import Mathlib

/-!
Shallow embedding of `src/MDB_BOT/main.py` (the pipeline core of the
MDB_BOT Telegram userbot) and verification of its specification claims.

The shared Python dict `pending_ca_for_analysis : { address : state }` is
modelled as an insertion-ordered association list.  Python dict semantics
used by the source are preserved: insertion appends at the end, updating
an existing key keeps its position, `dict.items()` iterates in insertion
order, and `del` removes the key.  The Telethon event loop dispatches all
handlers registered for one chat sequentially in registration order, and
`events.StopPropagation` aborts the remaining handlers for that event;
this is modelled explicitly in `dispatch_phanes`.  Outbound sends are
modelled as emitted actions; the two final forwards, which the source
wraps in `try/except`, carry an explicit delivery-outcome parameter.
-/

namespace MDBBot

/-- Pipeline states: the exact value strings stored in the Python dict
`pending_ca_for_analysis` (`'a_soul_scanner'`, `'a_waiting_for_th_response'`,
`'a_waiting_for_tt_response'`, `'b_waiting_for_response'`,
`'b_waiting_for_tt_response'`). -/
inductive PState
| a_soul_scanner
| a_waiting_for_th_response
| a_waiting_for_tt_response
| b_waiting_for_response
| b_waiting_for_tt_response
deriving DecidableEq, Repr

/-- Outbound peers of `client.send_message` in the source:
`soul_scanner_bot_username`, `phanes_bot_username`, `sol_target_group`,
`bnb_target_group`. -/
inductive Peer
| soul_scanner_bot
| phanes_bot
| sol_target_group
| bnb_target_group
deriving DecidableEq, Repr

/-- Message entities: the source only inspects `MessageEntityTextUrl`
entities (reading their `url`) and skips every other entity kind. -/
inductive Entity
| textUrl (url : String)
| other
deriving DecidableEq, Repr

/-- The shared dict `pending_ca_for_analysis`, as an insertion-ordered
association list from contract address to pipeline state. -/
abbrev Store := List (String × PState)

/-- Python `ca in pending_ca_for_analysis` (dict key membership). -/
def mem_ca (s : Store) (a : String) : Bool :=
  s.any (fun p => decide (p.1 = a))

/-- The state currently stored for an address (first entry with that key). -/
def lookup_ca (s : Store) (a : String) : Option PState :=
  (s.find? (fun p => decide (p.1 = a))).map (fun p => p.2)

/-- Python `pending_ca_for_analysis[a] = st` for an existing key `a`:
the value is replaced, the key keeps its position. -/
def set_state (s : Store) (a : String) (st : PState) : Store :=
  s.map (fun p => if p.1 = a then (p.1, st) else p)

/-- Python `del pending_ca_for_analysis[a]`. -/
def del_ca (s : Store) (a : String) : Store :=
  s.filter (fun p => decide (p.1 ≠ a))

/-- Keys of the store, in insertion order. -/
def keys (s : Store) : List String :=
  s.map (fun p => p.1)

/-! ### Solana address validation (`is_valid_solana_address`)

The source calls `solders.pubkey.Pubkey.from_string`, which rejects
strings longer than 44 characters, base58-decodes the string (erring on
any character outside the base58 alphabet), and requires the decoded
byte string to be exactly 32 bytes long.  A base58 decode yields one
zero byte per leading `'1'` plus the big-endian bytes of the value of
the remaining digits. -/

/-- The bitcoin base58 alphabet used by `bs58`/`solders`. -/
def base58_alphabet : List Char :=
  "123456789ABCDEFGHJKLMNPQRSTUVWXYZabcdefghijkmnopqrstuvwxyz".data

/-- Index of a character in the base58 alphabet, if it occurs there. -/
def base58_digit (c : Char) : Option Nat :=
  base58_alphabet.indexOf? c

/-- Value of a base58 digit string, or `none` on a character outside the
alphabet. -/
def base58_decode : List Char → Option Nat
| [] => some 0
| c :: rest =>
  match base58_digit c, base58_decode rest with
  | some d, some v => some (d * 58 ^ rest.length + v)
  | _, _ => none

/-- Fuel-indexed byte length of a natural number (big-endian, no leading
zero bytes); `byte_length_go f n` is exact whenever `n ≤ f`. -/
def byte_length_go : Nat → Nat → Nat
| 0, _ => 0
| fuel + 1, n => if n = 0 then 0 else byte_length_go fuel (n / 256) + 1

/-- Number of bytes in the big-endian encoding of `n` (`0` for `0`). -/
def byte_length (n : Nat) : Nat :=
  byte_length_go n n

/-- Errors of `solders.pubkey.Pubkey.from_string`. -/
inductive PubkeyError
| wrongSize
| invalid
deriving DecidableEq, Repr

/-- Model of `Pubkey.from_string`: reject strings longer than 44
characters, base58-decode, and require exactly 32 decoded bytes. -/
def pubkey_from_string (s : String) : Except PubkeyError Unit :=
  if 44 < s.data.length then Except.error PubkeyError.wrongSize
  else
    match base58_decode s.data with
    | none => Except.error PubkeyError.invalid
    | some v =>
      let zeros := (s.data.takeWhile (fun c => decide (c = '1'))).length
      if zeros + byte_length v = 32 then Except.ok ()
      else Except.error PubkeyError.wrongSize

/-- `is_valid_solana_address` from the source: the `try/except` around
`Pubkey.from_string(address)` maps success to `True` and any raised
error to `False`. -/
def is_valid_solana_address (address : String) : Bool :=
  match pubkey_from_string address with
  | Except.ok _ => true
  | Except.error _ => false

/-! ### Regex `findall` models

`solana_address_pattern = [1-9A-HJ-NP-Za-km-z]{32,44}` and
`evm_address_pattern = 0x[a-fA-F0-9]{40}`.  Python's `findall` returns
the leftmost non-overlapping matches; each match of a greedy bounded
repetition of a character class takes the longest admissible run at its
start position, and scanning resumes right after a match (or one
character further on failure).  The scanners below are fuel-indexed with
fuel equal to the input length, which each step strictly consumes. -/

/-- Membership in the character class `[1-9A-HJ-NP-Za-km-z]` (exactly
the base58 alphabet). -/
def is_base58_char (c : Char) : Bool :=
  (base58_digit c).isSome

/-- Membership in the character class `[a-fA-F0-9]`. -/
def is_hex_char (c : Char) : Bool :=
  c.isDigit || (decide ('a' ≤ c) && decide (c ≤ 'f')) || (decide ('A' ≤ c) && decide (c ≤ 'F'))

/-- Fuel-indexed scanner for `solana_address_pattern.findall`. -/
def sol_findall_go : Nat → List Char → List String
| 0, _ => []
| _ + 1, [] => []
| fuel + 1, c :: rest =>
  let run := (c :: rest).takeWhile is_base58_char
  if 32 ≤ run.length then
    String.mk (run.take 44) :: sol_findall_go fuel ((c :: rest).drop (min run.length 44))
  else
    sol_findall_go fuel rest

/-- `solana_address_pattern.findall`. -/
def sol_findall (cs : List Char) : List String :=
  sol_findall_go cs.length cs

/-- Fuel-indexed scanner for `evm_address_pattern.findall`: a literal
`0x` followed by exactly 40 hex characters. -/
def evm_findall_go : Nat → List Char → List String
| 0, _ => []
| _ + 1, [] => []
| fuel + 1, c :: rest =>
  if c = '0' then
    match rest with
    | 'x' :: rest2 =>
      if 40 ≤ (rest2.takeWhile is_hex_char).length then
        String.mk ('0' :: 'x' :: (rest2.takeWhile is_hex_char).take 40) ::
          evm_findall_go fuel (rest2.drop 40)
      else
        evm_findall_go fuel rest
    | _ => evm_findall_go fuel rest
  else
    evm_findall_go fuel rest

/-- `evm_address_pattern.findall`. -/
def evm_findall (cs : List Char) : List String :=
  evm_findall_go cs.length cs

/-- `pattern.findall` where `pattern` is chosen by the source channel:
`evm_address_pattern` for the BNB channel, `solana_address_pattern`
otherwise. -/
def pattern_findall (is_bnb_channel : Bool) (s : String) : List String :=
  if is_bnb_channel then evm_findall s.data else sol_findall s.data

/-! ### The extractor `extract_ca` -/

/-- The inner `for addr in matches` loop of `extract_ca`: return the
first match that passes the chain's validator (Solana: `solders`
decoding succeeds; BNB: the regex match alone). -/
def scan_matches (is_bnb_channel : Bool) : List String → Option String
| [] => none
| addr :: rest =>
  if !is_bnb_channel && is_valid_solana_address addr then some addr
  else if is_bnb_channel then some addr
  else scan_matches is_bnb_channel rest

/-- The outer `for entity in event.message.entities` loop of
`extract_ca`: only `MessageEntityTextUrl` entities are scanned, in the
given order. -/
def scan_entities (is_bnb_channel : Bool) : List Entity → Option String
| [] => none
| Entity.textUrl url :: rest =>
  match scan_matches is_bnb_channel (pattern_findall is_bnb_channel url) with
  | some addr => some addr
  | none => scan_entities is_bnb_channel rest
| Entity.other :: rest => scan_entities is_bnb_channel rest

/-- `extract_ca(event, is_bnb_channel)` from the source: search URL
entities first; when that returns nothing (the local `found_ca` is still
`None`), search the raw message text. -/
def extract_ca (entities : List Entity) (raw_text : String) (is_bnb_channel : Bool) :
    Option String :=
  match scan_entities is_bnb_channel entities with
  | some addr => some addr
  | none => scan_matches is_bnb_channel (pattern_findall is_bnb_channel raw_text)

/-- Extractor as the specification words it (§4.1): collect the regex
matches of the entity URLs in order, return the first one passing the
chain's validator; if none, do the same over the raw text. -/
def extract_ca_spec (entities : List Entity) (raw_text : String) (is_bnb_channel : Bool) :
    Option String :=
  let validator : String → Bool :=
    fun addr => if is_bnb_channel then true else is_valid_solana_address addr
  let urls := entities.filterMap (fun e =>
    match e with
    | Entity.textUrl url => some url
    | Entity.other => none)
  let entity_candidates := (urls.map (pattern_findall is_bnb_channel)).flatten
  match entity_candidates.find? validator with
  | some addr => some addr
  | none => (pattern_findall is_bnb_channel raw_text).find? validator

/-! ### Source-channel prefilter -/

/-- Python `str.strip()` (modelled over the ASCII whitespace that
`Char.isWhitespace` covers). -/
def py_strip (s : String) : String :=
  String.mk (((s.data.dropWhile Char.isWhitespace).reverse.dropWhile Char.isWhitespace).reverse)

/-- Python `raw_text.startswith(g)` for a single-codepoint glyph `g`. -/
def starts_with_glyph (g : Char) (s : String) : Bool :=
  match s.data with
  | [] => false
  | c :: _ => decide (c = g)

/-- Python substring containment `small in big` over character lists. -/
def infix_of (small : List Char) : List Char → Bool
| [] => small.isEmpty
| c :: rest => small.isPrefixOf (c :: rest) || infix_of small rest

/-! ### Handlers

Each handler returns the updated store, the sends it performed, and the
address it acted on (`found`, mirroring the handler's local `found_ca`;
`none` means the handler returned without consuming the event). -/

/-- Result of running one handler. -/
structure HResult where
  store : Store
  sends : List (Peer × String)
  found : Option String
deriving DecidableEq, Repr

/-- `sol_handler` (STEP A1): on a message of the Solana source channel,
require the stripped text to start with the fire glyph, extract a Solana
CA, skip when it is already pending, otherwise open the instance at
`a_soul_scanner` and send the CA to the soul scanner bot. -/
def sol_handler (entities : List Entity) (raw_text : String) (s : Store) : HResult :=
  if !starts_with_glyph '🔥' (py_strip raw_text) then ⟨s, [], none⟩
  else
    match extract_ca entities raw_text false with
    | none => ⟨s, [], none⟩
    | some found_ca_to_send =>
      if mem_ca s found_ca_to_send then ⟨s, [], none⟩
      else
        ⟨s ++ [(found_ca_to_send, PState.a_soul_scanner)],
         [(Peer.soul_scanner_bot, found_ca_to_send)], some found_ca_to_send⟩

/-- `bnb_handler` (STEP B1): on a message of the BNB source channel,
require the stripped text to start with the coin glyph, extract a BNB
CA, skip when it is already pending, otherwise open the instance at
`b_waiting_for_response` and send the CA to the Phanes bot. -/
def bnb_handler (entities : List Entity) (raw_text : String) (s : Store) : HResult :=
  if !starts_with_glyph '🪙' (py_strip raw_text) then ⟨s, [], none⟩
  else
    match extract_ca entities raw_text true with
    | none => ⟨s, [], none⟩
    | some found_ca_to_send =>
      if mem_ca s found_ca_to_send then ⟨s, [], none⟩
      else
        ⟨s ++ [(found_ca_to_send, PState.b_waiting_for_response)],
         [(Peer.phanes_bot, found_ca_to_send)], some found_ca_to_send⟩

/-- `sol_soul_scanner_handler` (STEP A2): find the first pending CA at
`a_soul_scanner` that occurs in the reply text, move it to
`a_waiting_for_th_response` and send `/th CA` to the Phanes bot. -/
def sol_soul_scanner_handler (raw_text : String) (s : Store) : HResult :=
  match s.find? (fun p =>
      decide (p.2 = PState.a_soul_scanner) && infix_of p.1.data raw_text.data) with
  | none => ⟨s, [], none⟩
  | some (found_ca, _) =>
    ⟨set_state s found_ca PState.a_waiting_for_th_response,
     [(Peer.phanes_bot, "/th " ++ found_ca)], some found_ca⟩

/-- `sol_phanes_th_response_handler` (STEP A3): find the first pending
CA at `a_waiting_for_th_response` (no content check), move it to
`a_waiting_for_tt_response` and send `/tt CA`; on consuming it raises
`events.StopPropagation`. -/
def sol_phanes_th_response_handler (s : Store) : HResult :=
  match s.find? (fun p => decide (p.2 = PState.a_waiting_for_th_response)) with
  | none => ⟨s, [], none⟩
  | some (found_ca, _) =>
    ⟨set_state s found_ca PState.a_waiting_for_tt_response,
     [(Peer.phanes_bot, "/tt " ++ found_ca)], some found_ca⟩

/-- `sol_phanes_tt_response_handler` (STEP A4): find the first pending
CA at `a_waiting_for_tt_response`, forward it to the Solana target group
inside `try/except` (`send_ok` is the delivery outcome; on failure the
error is only logged), then delete the instance in either case. -/
def sol_phanes_tt_response_handler (send_ok : Bool) (s : Store) : HResult :=
  match s.find? (fun p => decide (p.2 = PState.a_waiting_for_tt_response)) with
  | none => ⟨s, [], none⟩
  | some (found_ca, _) =>
    ⟨if mem_ca s found_ca then del_ca s found_ca else s,
     if send_ok then [(Peer.sol_target_group, found_ca)] else [],
     some found_ca⟩

/-- `bnb_phanes_initial_response_handler` (STEP B2): find the first
pending CA at `b_waiting_for_response`, move it to
`b_waiting_for_tt_response` and send `/tt CA`; on consuming it raises
`events.StopPropagation`. -/
def bnb_phanes_initial_response_handler (s : Store) : HResult :=
  match s.find? (fun p => decide (p.2 = PState.b_waiting_for_response)) with
  | none => ⟨s, [], none⟩
  | some (found_ca, _) =>
    ⟨set_state s found_ca PState.b_waiting_for_tt_response,
     [(Peer.phanes_bot, "/tt " ++ found_ca)], some found_ca⟩

/-- `bnb_phanes_tt_response_handler` (STEP B3): find the first pending
CA at `b_waiting_for_tt_response`, forward it to the BNB target group
inside `try/except`, then delete the instance in either case. -/
def bnb_phanes_tt_response_handler (send_ok : Bool) (s : Store) : HResult :=
  match s.find? (fun p => decide (p.2 = PState.b_waiting_for_tt_response)) with
  | none => ⟨s, [], none⟩
  | some (found_ca, _) =>
    ⟨if mem_ca s found_ca then del_ca s found_ca else s,
     if send_ok then [(Peer.bnb_target_group, found_ca)] else [],
     some found_ca⟩

/-! ### Dispatch of a Phanes-bot reply

Four handlers are registered for the Phanes chat, in source order:
`sol_phanes_th_response_handler`, `sol_phanes_tt_response_handler`,
`bnb_phanes_initial_response_handler`, `bnb_phanes_tt_response_handler`.
Telethon runs them sequentially; `events.StopPropagation` (raised by the
first and the third after consuming) aborts the remaining ones. -/

/-- The four correlator steps listening to the shared Phanes bot. -/
inductive Step
| solTh
| solTt
| bnbInit
| bnbTt
deriving DecidableEq, Repr

/-- Result of dispatching one Phanes reply: final store, all sends, and
the steps that consumed the event, in execution order. -/
structure DResult where
  store : Store
  sends : List (Peer × String)
  acted : List Step
deriving DecidableEq, Repr

/-- Dispatch of one reply event from the Phanes bot over the four
registered handlers, honouring `events.StopPropagation`. -/
def dispatch_phanes (sol_send_ok bnb_send_ok : Bool) (s : Store) : DResult :=
  let r1 := sol_phanes_th_response_handler s
  match r1.found with
  | some _ => ⟨r1.store, r1.sends, [Step.solTh]⟩
  | none =>
    let r2 := sol_phanes_tt_response_handler sol_send_ok r1.store
    let acted2 := match r2.found with
      | some _ => [Step.solTt]
      | none => []
    let r3 := bnb_phanes_initial_response_handler r2.store
    match r3.found with
    | some _ => ⟨r3.store, r2.sends ++ r3.sends, acted2 ++ [Step.bnbInit]⟩
    | none =>
      let r4 := bnb_phanes_tt_response_handler bnb_send_ok r3.store
      let acted4 := match r4.found with
        | some _ => [Step.bnbTt]
        | none => []
      ⟨r4.store, r2.sends ++ r4.sends, acted2 ++ acted4⟩

/-! ### Events and reachability -/

/-- One inbound message event, by source chat.  A Phanes reply carries
the delivery outcomes of the (up to two) guarded terminal forwards. -/
inductive Event
| sol_msg (entities : List Entity) (raw_text : String)
| scanner_msg (raw_text : String)
| phanes_msg (sol_send_ok bnb_send_ok : Bool)
| bnb_msg (entities : List Entity) (raw_text : String)

/-- Effect of one event on the shared store. -/
def step : Event → Store → Store
| Event.sol_msg entities raw_text, s => (sol_handler entities raw_text s).store
| Event.scanner_msg raw_text, s => (sol_soul_scanner_handler raw_text s).store
| Event.phanes_msg a b, s => (dispatch_phanes a b s).store
| Event.bnb_msg entities raw_text, s => (bnb_handler entities raw_text s).store

/-- Stores reachable from the initial empty dict by any event sequence. -/
inductive Reachable : Store → Prop
| init : Reachable []
| next {s : Store} (e : Event) : Reachable s → Reachable (step e s)

/-- Chain-specific successor of a stored state; `none` for the states
whose exit is terminal removal. -/
def next_state : PState → Option PState
| PState.a_soul_scanner => some PState.a_waiting_for_th_response
| PState.a_waiting_for_th_response => some PState.a_waiting_for_tt_response
| PState.a_waiting_for_tt_response => none
| PState.b_waiting_for_response => some PState.b_waiting_for_tt_response
| PState.b_waiting_for_tt_response => none

/-! ### The Pipeline State Store's `Advance` operation -/

/-- Result of `Advance` (§4.2 of the specification). -/
inductive AdvanceResult
| ok
| notFound
| stageMismatch
deriving DecidableEq, Repr

/-- Modelled from the spec: `Advance(address, fromStage, toStage)` of
the Pipeline State Store (§4.2).  The store exists in the source only as
the shared dict `pending_ca_for_analysis`, mutated inline by the
handlers; this is the check-and-mutate operation the spec abstracts from
those inline mutations. -/
def Advance (s : Store) (a : String) (fromStage toStage : PState) :
    AdvanceResult × Store :=
  match lookup_ca s a with
  | none => (AdvanceResult.notFound, s)
  | some st =>
    if st = fromStage then (AdvanceResult.ok, set_state s a toStage)
    else (AdvanceResult.stageMismatch, s)

/-! ### Store lemmas -/

theorem lookup_ca_cons (p : String × PState) (s : Store) (a : String) :
    lookup_ca (p :: s) a = if p.1 = a then some p.2 else lookup_ca s a := by
  by_cases h : p.1 = a
  · rw [lookup_ca, List.find?_cons_of_pos _ (by simpa using h)]
    simp [h]
  · rw [lookup_ca, List.find?_cons_of_neg _ (by simpa using h), if_neg h]
    rfl

theorem mem_ca_iff (s : Store) (a : String) : mem_ca s a = true ↔ a ∈ keys s := by
  simp [mem_ca, keys, List.any_eq_true, List.mem_map]

theorem lookup_set_state (s : Store) (c : String) (v : PState) (a : String) :
    lookup_ca (set_state s c v) a =
      (lookup_ca s a).map (fun st => if a = c then v else st) := by
  induction s with
  | nil => rfl
  | cons p rest ih =>
    by_cases hpc : p.1 = c
    · by_cases hpa : p.1 = a
      · simp [set_state, lookup_ca_cons, hpc, hpa, hpa ▸ hpc]
      · simp only [set_state, List.map_cons, if_pos hpc, lookup_ca_cons, if_pos hpc,
          if_neg hpa, lookup_ca_cons (p.1, v), if_neg hpa]
        exact ih
    · by_cases hpa : p.1 = a
      · have : ¬ a = c := fun h => hpc (hpa.trans h)
        simp [set_state, lookup_ca_cons, hpc, hpa, this]
      · simp only [set_state, List.map_cons, if_neg hpc, lookup_ca_cons, if_neg hpa]
        exact ih

theorem lookup_del (s : Store) (c a : String) :
    lookup_ca (del_ca s c) a = if a = c then none else lookup_ca s a := by
  induction s with
  | nil =>
    simp only [del_ca, List.filter_nil, lookup_ca, List.find?_nil, Option.map_none]
    split <;> rfl
  | cons p rest ih =>
    by_cases hpc : p.1 = c
    · have : del_ca (p :: rest) c = del_ca rest c := by
        simp [del_ca, List.filter_cons, hpc]
      rw [this, ih, lookup_ca_cons]
      by_cases hac : a = c
      · simp [hac]
      · have hpa : ¬ p.1 = a := fun h => hac (h ▸ hpc ▸ rfl)
        simp [hac, hpa]
    · have : del_ca (p :: rest) c = p :: del_ca rest c := by
        simp [del_ca, List.filter_cons, hpc]
      rw [this, lookup_ca_cons, lookup_ca_cons, ih]
      by_cases hpa : p.1 = a
      · have hac : ¬ a = c := fun h => hpc (hpa.symm ▸ h)
        simp [hpa, hac]
      · simp [hpa]

theorem keys_set_state (s : Store) (c : String) (v : PState) :
    keys (set_state s c v) = keys s := by
  simp only [keys, set_state, List.map_map]
  congr 1
  funext p
  by_cases h : p.1 = c <;> simp [h, Function.comp]

theorem keys_del_sublist (s : Store) (c : String) :
    (keys (del_ca s c)).Sublist (keys s) := by
  unfold keys del_ca
  exact (List.filter_sublist s).map (fun p => p.1)

theorem keys_append_single (s : Store) (c : String) (v : PState) :
    keys (s ++ [(c, v)]) = keys s ++ [c] := by
  simp [keys]

theorem lookup_append_left {s : Store} {a : String} {st : PState} (l : Store)
    (h : lookup_ca s a = some st) : lookup_ca (s ++ l) a = some st := by
  unfold lookup_ca at *
  cases hf : s.find? (fun p => decide (p.1 = a)) with
  | none => rw [hf] at h; exact absurd h (by simp)
  | some p =>
    rw [hf] at h
    rw [List.find?_append, hf]
    simpa using h

theorem lookup_of_mem_nodup {s : Store} {a : String} {st : PState}
    (hnd : (keys s).Nodup) (hmem : (a, st) ∈ s) : lookup_ca s a = some st := by
  induction s with
  | nil => cases hmem
  | cons p rest ih =>
    rw [keys, List.map_cons, List.nodup_cons] at hnd
    rw [lookup_ca_cons]
    rcases List.mem_cons.mp hmem with heq | hmem'
    · rw [← heq]
      simp
    · have ha : a ∈ keys rest := by
        rw [keys]
        exact List.mem_map.mpr ⟨(a, st), hmem', rfl⟩
      have hpa : ¬ p.1 = a := by
        intro h
        exact hnd.1 (by rw [h]; exact (by rw [keys] at ha; exact ha))
      rw [if_neg hpa]
      exact ih hnd.2 hmem'

theorem lookup_isSome_iff_mem (s : Store) (a : String) :
    (lookup_ca s a).isSome = true ↔ a ∈ keys s := by
  have h : (lookup_ca s a).isSome = (s.find? (fun p => decide (p.1 = a))).isSome := by
    unfold lookup_ca
    cases s.find? (fun p => decide (p.1 = a)) <;> rfl
  rw [h, List.find?_isSome]
  simp only [keys, List.mem_map, decide_eq_true_eq]

/-! ### Handler lemmas -/

theorem sol_th_of_found_none {s : Store}
    (h : (sol_phanes_th_response_handler s).found = none) :
    sol_phanes_th_response_handler s = ⟨s, [], none⟩ := by
  unfold sol_phanes_th_response_handler at *
  cases hf : s.find? (fun p => decide (p.2 = PState.a_waiting_for_th_response)) with
  | none => rfl
  | some p =>
    rw [hf] at h
    cases p
    simp at h

theorem bnb_init_of_found_none {s : Store}
    (h : (bnb_phanes_initial_response_handler s).found = none) :
    bnb_phanes_initial_response_handler s = ⟨s, [], none⟩ := by
  unfold bnb_phanes_initial_response_handler at *
  cases hf : s.find? (fun p => decide (p.2 = PState.b_waiting_for_response)) with
  | none => rfl
  | some p =>
    rw [hf] at h
    cases p
    simp at h

theorem lookup_sol_tt {send_ok : Bool} {s : Store} {a : String} {st : PState}
    (h : lookup_ca (sol_phanes_tt_response_handler send_ok s).store a = some st) :
    lookup_ca s a = some st := by
  unfold sol_phanes_tt_response_handler at h
  cases hf : s.find? (fun p => decide (p.2 = PState.a_waiting_for_tt_response)) with
  | none => rw [hf] at h; exact h
  | some p =>
    cases p with
    | mk c stc =>
      rw [hf] at h
      simp only at h
      by_cases hmem : mem_ca s c
      · rw [if_pos hmem, lookup_del] at h
        by_cases hac : a = c
        · rw [if_pos hac] at h; cases h
        · rwa [if_neg hac] at h
      · rwa [if_neg hmem] at h

theorem lookup_bnb_tt {send_ok : Bool} {s : Store} {a : String} {st : PState}
    (h : lookup_ca (bnb_phanes_tt_response_handler send_ok s).store a = some st) :
    lookup_ca s a = some st := by
  unfold bnb_phanes_tt_response_handler at h
  cases hf : s.find? (fun p => decide (p.2 = PState.b_waiting_for_tt_response)) with
  | none => rw [hf] at h; exact h
  | some p =>
    cases p with
    | mk c stc =>
      rw [hf] at h
      simp only at h
      by_cases hmem : mem_ca s c
      · rw [if_pos hmem, lookup_del] at h
        by_cases hac : a = c
        · rw [if_pos hac] at h; cases h
        · rwa [if_neg hac] at h
      · rwa [if_neg hmem] at h

theorem sol_th_advance {s : Store} (hnd : (keys s).Nodup) {a : String} {st st' : PState}
    (hs : lookup_ca s a = some st)
    (h : lookup_ca (sol_phanes_th_response_handler s).store a = some st') :
    st' = st ∨ (st = PState.a_waiting_for_th_response ∧
      st' = PState.a_waiting_for_tt_response) := by
  unfold sol_phanes_th_response_handler at h
  cases hf : s.find? (fun p => decide (p.2 = PState.a_waiting_for_th_response)) with
  | none =>
    rw [hf] at h
    left
    rw [hs] at h
    exact (Option.some_inj.mp h).symm
  | some p =>
    cases p with
    | mk c stc =>
      rw [hf] at h
      simp only at h
      rw [lookup_set_state, hs] at h
      by_cases hac : a = c
      · right
        have hstc : stc = PState.a_waiting_for_th_response := by
          simpa using List.find?_some hf
        have hcmem : (c, stc) ∈ s := List.mem_of_find?_eq_some hf
        have : lookup_ca s c = some stc := lookup_of_mem_nodup hnd hcmem
        have hst : st = PState.a_waiting_for_th_response := by
          rw [← hac] at this
          rw [hs] at this
          rw [← hstc]
          exact Option.some_inj.mp this
        simp only [if_pos hac, Option.map_some] at h
        exact ⟨hst, (Option.some_inj.mp h).symm⟩
      · left
        simp only [if_neg hac, Option.map_some] at h
        exact (Option.some_inj.mp h).symm

theorem bnb_init_advance {s : Store} (hnd : (keys s).Nodup) {a : String} {st st' : PState}
    (hs : lookup_ca s a = some st)
    (h : lookup_ca (bnb_phanes_initial_response_handler s).store a = some st') :
    st' = st ∨ (st = PState.b_waiting_for_response ∧
      st' = PState.b_waiting_for_tt_response) := by
  unfold bnb_phanes_initial_response_handler at h
  cases hf : s.find? (fun p => decide (p.2 = PState.b_waiting_for_response)) with
  | none =>
    rw [hf] at h
    left
    rw [hs] at h
    exact (Option.some_inj.mp h).symm
  | some p =>
    cases p with
    | mk c stc =>
      rw [hf] at h
      simp only at h
      rw [lookup_set_state, hs] at h
      by_cases hac : a = c
      · right
        have hstc : stc = PState.b_waiting_for_response := by
          simpa using List.find?_some hf
        have hcmem : (c, stc) ∈ s := List.mem_of_find?_eq_some hf
        have : lookup_ca s c = some stc := lookup_of_mem_nodup hnd hcmem
        have hst : st = PState.b_waiting_for_response := by
          rw [← hac] at this
          rw [hs] at this
          rw [← hstc]
          exact Option.some_inj.mp this
        simp only [if_pos hac, Option.map_some] at h
        exact ⟨hst, (Option.some_inj.mp h).symm⟩
      · left
        simp only [if_neg hac, Option.map_some] at h
        exact (Option.some_inj.mp h).symm

theorem scanner_advance {raw_text : String} {s : Store} (hnd : (keys s).Nodup)
    {a : String} {st st' : PState}
    (hs : lookup_ca s a = some st)
    (h : lookup_ca (sol_soul_scanner_handler raw_text s).store a = some st') :
    st' = st ∨ (st = PState.a_soul_scanner ∧
      st' = PState.a_waiting_for_th_response) := by
  unfold sol_soul_scanner_handler at h
  cases hf : s.find? (fun p =>
      decide (p.2 = PState.a_soul_scanner) && infix_of p.1.data raw_text.data) with
  | none =>
    rw [hf] at h
    left
    rw [hs] at h
    exact (Option.some_inj.mp h).symm
  | some p =>
    cases p with
    | mk c stc =>
      rw [hf] at h
      simp only at h
      rw [lookup_set_state, hs] at h
      by_cases hac : a = c
      · right
        have hstc : stc = PState.a_soul_scanner := by
          have := List.find?_some hf
          simp only [Bool.and_eq_true, decide_eq_true_eq] at this
          exact this.1
        have hcmem : (c, stc) ∈ s := List.mem_of_find?_eq_some hf
        have : lookup_ca s c = some stc := lookup_of_mem_nodup hnd hcmem
        have hst : st = PState.a_soul_scanner := by
          rw [← hac] at this
          rw [hs] at this
          rw [← hstc]
          exact Option.some_inj.mp this
        simp only [if_pos hac, Option.map_some] at h
        exact ⟨hst, (Option.some_inj.mp h).symm⟩
      · left
        simp only [if_neg hac, Option.map_some] at h
        exact (Option.some_inj.mp h).symm

/-! ### The keys of the shared dict stay duplicate-free -/

theorem wf_sol_handler (entities : List Entity) (raw_text : String) (s : Store)
    (hnd : (keys s).Nodup) : (keys (sol_handler entities raw_text s).store).Nodup := by
  unfold sol_handler
  by_cases hg : starts_with_glyph '🔥' (py_strip raw_text)
  · simp only [hg, Bool.not_true, Bool.false_eq_true, if_false]
    cases extract_ca entities raw_text false with
    | none => exact hnd
    | some ca =>
      simp only
      by_cases hm : mem_ca s ca
      · rw [if_pos hm]
        exact hnd
      · rw [if_neg hm]
        simp only [keys_append_single, List.nodup_append]
        refine ⟨hnd, List.nodup_singleton ca, ?_⟩
        intro x hx hx'
        rw [List.mem_singleton] at hx'
        subst hx'
        exact hm ((mem_ca_iff s x).mpr hx)
  · simp only [hg]
    simpa using hnd

theorem wf_bnb_handler (entities : List Entity) (raw_text : String) (s : Store)
    (hnd : (keys s).Nodup) : (keys (bnb_handler entities raw_text s).store).Nodup := by
  unfold bnb_handler
  by_cases hg : starts_with_glyph '🪙' (py_strip raw_text)
  · simp only [hg, Bool.not_true, Bool.false_eq_true, if_false]
    cases extract_ca entities raw_text true with
    | none => exact hnd
    | some ca =>
      simp only
      by_cases hm : mem_ca s ca
      · rw [if_pos hm]
        exact hnd
      · rw [if_neg hm]
        simp only [keys_append_single, List.nodup_append]
        refine ⟨hnd, List.nodup_singleton ca, ?_⟩
        intro x hx hx'
        rw [List.mem_singleton] at hx'
        subst hx'
        exact hm ((mem_ca_iff s x).mpr hx)
  · simp only [hg]
    simpa using hnd

theorem wf_scanner_handler (raw_text : String) (s : Store)
    (hnd : (keys s).Nodup) : (keys (sol_soul_scanner_handler raw_text s).store).Nodup := by
  unfold sol_soul_scanner_handler
  cases s.find? (fun p =>
      decide (p.2 = PState.a_soul_scanner) && infix_of p.1.data raw_text.data) with
  | none => exact hnd
  | some p =>
    cases p
    simp only
    rw [keys_set_state]
    exact hnd

theorem wf_sol_th (s : Store) (hnd : (keys s).Nodup) :
    (keys (sol_phanes_th_response_handler s).store).Nodup := by
  unfold sol_phanes_th_response_handler
  cases s.find? (fun p => decide (p.2 = PState.a_waiting_for_th_response)) with
  | none => exact hnd
  | some p =>
    cases p
    simp only
    rw [keys_set_state]
    exact hnd

theorem wf_bnb_init (s : Store) (hnd : (keys s).Nodup) :
    (keys (bnb_phanes_initial_response_handler s).store).Nodup := by
  unfold bnb_phanes_initial_response_handler
  cases s.find? (fun p => decide (p.2 = PState.b_waiting_for_response)) with
  | none => exact hnd
  | some p =>
    cases p
    simp only
    rw [keys_set_state]
    exact hnd

theorem wf_sol_tt (send_ok : Bool) (s : Store) (hnd : (keys s).Nodup) :
    (keys (sol_phanes_tt_response_handler send_ok s).store).Nodup := by
  unfold sol_phanes_tt_response_handler
  cases s.find? (fun p => decide (p.2 = PState.a_waiting_for_tt_response)) with
  | none => exact hnd
  | some p =>
    cases p with
    | mk c stc =>
      simp only
      by_cases hm : mem_ca s c
      · rw [if_pos hm]
        exact (keys_del_sublist s c).nodup hnd
      · rw [if_neg hm]
        exact hnd

theorem wf_bnb_tt (send_ok : Bool) (s : Store) (hnd : (keys s).Nodup) :
    (keys (bnb_phanes_tt_response_handler send_ok s).store).Nodup := by
  unfold bnb_phanes_tt_response_handler
  cases s.find? (fun p => decide (p.2 = PState.b_waiting_for_tt_response)) with
  | none => exact hnd
  | some p =>
    cases p with
    | mk c stc =>
      simp only
      by_cases hm : mem_ca s c
      · rw [if_pos hm]
        exact (keys_del_sublist s c).nodup hnd
      · rw [if_neg hm]
        exact hnd

theorem wf_dispatch (sol_send_ok bnb_send_ok : Bool) (s : Store)
    (hnd : (keys s).Nodup) :
    (keys (dispatch_phanes sol_send_ok bnb_send_ok s).store).Nodup := by
  have h1 := wf_sol_th s hnd
  have h2 := wf_sol_tt sol_send_ok _ h1
  have h3 := wf_bnb_init _ h2
  have h4 := wf_bnb_tt bnb_send_ok _ h3
  simp only [dispatch_phanes]
  split
  · exact h1
  · split
    · exact h3
    · exact h4

theorem wf_step (e : Event) (s : Store) (hnd : (keys s).Nodup) :
    (keys (step e s)).Nodup := by
  cases e with
  | sol_msg entities raw_text => exact wf_sol_handler entities raw_text s hnd
  | scanner_msg raw_text => exact wf_scanner_handler raw_text s hnd
  | phanes_msg a b => exact wf_dispatch a b s hnd
  | bnb_msg entities raw_text => exact wf_bnb_handler entities raw_text s hnd

theorem wf_of_reachable {s : Store} (h : Reachable s) : (keys s).Nodup := by
  induction h with
  | init => exact List.nodup_nil
  | next e _ ih => exact wf_step e _ ih

/-! ### Per-event stage transitions -/

theorem bnb_init_isSome {s : Store} {a : String} {st' : PState}
    (h : lookup_ca (bnb_phanes_initial_response_handler s).store a = some st') :
    (lookup_ca s a).isSome := by
  unfold bnb_phanes_initial_response_handler at h
  cases hf : s.find? (fun p => decide (p.2 = PState.b_waiting_for_response)) with
  | none =>
    rw [hf] at h
    simp [h]
  | some p =>
    cases p
    rw [hf] at h
    simp only at h
    rw [lookup_set_state] at h
    cases hl : lookup_ca s a with
    | none => rw [hl] at h; cases h
    | some st => simp

theorem sol_handler_lookup_preserved (entities : List Entity) (raw_text : String)
    {s : Store} {a : String} {st : PState} (hs : lookup_ca s a = some st) :
    lookup_ca (sol_handler entities raw_text s).store a = some st := by
  unfold sol_handler
  by_cases hg : starts_with_glyph '🔥' (py_strip raw_text)
  · simp only [hg, Bool.not_true, Bool.false_eq_true, if_false]
    cases extract_ca entities raw_text false with
    | none => exact hs
    | some ca =>
      simp only
      by_cases hm : mem_ca s ca
      · rw [if_pos hm]
        exact hs
      · rw [if_neg hm]
        exact lookup_append_left _ hs
  · simp only [hg]
    simpa using hs

theorem bnb_handler_lookup_preserved (entities : List Entity) (raw_text : String)
    {s : Store} {a : String} {st : PState} (hs : lookup_ca s a = some st) :
    lookup_ca (bnb_handler entities raw_text s).store a = some st := by
  unfold bnb_handler
  by_cases hg : starts_with_glyph '🪙' (py_strip raw_text)
  · simp only [hg, Bool.not_true, Bool.false_eq_true, if_false]
    cases extract_ca entities raw_text true with
    | none => exact hs
    | some ca =>
      simp only
      by_cases hm : mem_ca s ca
      · rw [if_pos hm]
        exact hs
      · rw [if_neg hm]
        exact lookup_append_left _ hs
  · simp only [hg]
    simpa using hs

theorem dispatch_advance {sol_send_ok bnb_send_ok : Bool} {s : Store}
    (hnd : (keys s).Nodup) {a : String} {st st' : PState}
    (hs : lookup_ca s a = some st)
    (h : lookup_ca (dispatch_phanes sol_send_ok bnb_send_ok s).store a = some st') :
    st' = st ∨ next_state st = some st' := by
  simp only [dispatch_phanes] at h
  cases h1 : (sol_phanes_th_response_handler s).found with
  | some v =>
    rw [h1] at h
    simp only at h
    rcases sol_th_advance hnd hs h with heq | ⟨hfrom, hto⟩
    · exact Or.inl heq
    · right
      rw [hfrom, hto]
      rfl
  | none =>
    rw [h1] at h
    simp only at h
    rw [sol_th_of_found_none h1] at h
    simp only at h
    cases h3 : (bnb_phanes_initial_response_handler
        (sol_phanes_tt_response_handler sol_send_ok s).store).found with
    | some v =>
      rw [h3] at h
      simp only at h
      have hsome := bnb_init_isSome h
      rcases Option.isSome_iff_exists.mp hsome with ⟨st2, hs2⟩
      have hst2 : st2 = st := by
        have := lookup_sol_tt hs2
        rw [hs] at this
        exact (Option.some_inj.mp this).symm
      have hnd2 := wf_sol_tt sol_send_ok s hnd
      rcases bnb_init_advance hnd2 hs2 h with heq | ⟨hfrom, hto⟩
      · exact Or.inl (heq.trans hst2)
      · right
        rw [← hst2, hfrom, hto]
        rfl
    | none =>
      rw [h3] at h
      simp only at h
      rw [bnb_init_of_found_none h3] at h
      simp only at h
      left
      have := lookup_sol_tt (lookup_bnb_tt h)
      rw [hs] at this
      exact (Option.some_inj.mp this).symm

theorem step_advance (e : Event) {s : Store} (hnd : (keys s).Nodup)
    {a : String} {st st' : PState}
    (hs : lookup_ca s a = some st)
    (h : lookup_ca (step e s) a = some st') :
    st' = st ∨ next_state st = some st' := by
  cases e with
  | sol_msg entities raw_text =>
    left
    have := sol_handler_lookup_preserved entities raw_text hs
    rw [step] at h
    rw [this] at h
    exact (Option.some_inj.mp h).symm
  | scanner_msg raw_text =>
    rw [step] at h
    rcases scanner_advance hnd hs h with heq | ⟨hfrom, hto⟩
    · exact Or.inl heq
    · right
      rw [hfrom, hto]
      rfl
  | phanes_msg o1 o2 =>
    rw [step] at h
    exact dispatch_advance hnd hs h
  | bnb_msg entities raw_text =>
    left
    have := bnb_handler_lookup_preserved entities raw_text hs
    rw [step] at h
    rw [this] at h
    exact (Option.some_inj.mp h).symm

/-! ### Extractor lemmas -/

theorem scan_matches_eq_find (is_bnb_channel : Bool) (l : List String) :
    scan_matches is_bnb_channel l =
      l.find? (fun addr =>
        if is_bnb_channel then true else is_valid_solana_address addr) := by
  induction l with
  | nil => rfl
  | cons addr rest ih =>
    cases is_bnb_channel with
    | true =>
      rw [List.find?_cons_of_pos rest (by simp)]
      simp [scan_matches]
    | false =>
      by_cases hv : is_valid_solana_address addr
      · rw [List.find?_cons_of_pos rest (by simp [hv])]
        simp [scan_matches, hv]
      · rw [List.find?_cons_of_neg rest (by simp [hv])]
        rw [← ih]
        simp [scan_matches, hv]

theorem scan_entities_eq_find (is_bnb_channel : Bool) (es : List Entity) :
    scan_entities is_bnb_channel es =
      ((es.filterMap (fun e =>
          match e with
          | Entity.textUrl url => some url
          | Entity.other => none)).map
        (pattern_findall is_bnb_channel)).flatten.find?
        (fun addr =>
          if is_bnb_channel then true else is_valid_solana_address addr) := by
  induction es with
  | nil => rfl
  | cons e rest ih =>
    cases e with
    | other =>
      rw [scan_entities, ih, List.filterMap_cons]
    | textUrl url =>
      rw [scan_entities, List.filterMap_cons]
      simp only [List.map_cons, List.flatten_cons, List.find?_append]
      rw [scan_matches_eq_find]
      cases (pattern_findall is_bnb_channel url).find?
          (fun addr =>
            if is_bnb_channel then true else is_valid_solana_address addr) with
      | none =>
        rw [Option.none_or]
        exact ih
      | some a => rw [Option.or_some]

/-! ### Claim theorems and their witnesses -/

/-- C5: for every message and target chain, `extract_ca` scans the
hyperlink-entity URLs in their given order first and returns the first
regex match that passes the chain's validator (Solana: the match must
additionally decode as a public key; BNB: the regex match alone
suffices); if no entity URL yields a valid address it repeats the same
scan over the raw message text and returns the first valid match,
otherwise it returns none.  Stated as equality with `extract_ca_spec`,
the extractor written exactly as the specification words it. -/
theorem extract_ca_eq_spec (entities : List Entity) (raw_text : String)
    (is_bnb_channel : Bool) :
    extract_ca entities raw_text is_bnb_channel =
      extract_ca_spec entities raw_text is_bnb_channel := by
  unfold extract_ca extract_ca_spec
  rw [scan_entities_eq_find, scan_matches_eq_find]

/-- C10: the Solana address validator is a total boolean function equal
to the success bit of the fallible `Pubkey.from_string` decode: every
decode failure yields `false` rather than a propagated exception. -/
theorem validator_total (address : String) :
    is_valid_solana_address address = (pubkey_from_string address).isOk := by
  cases hp : pubkey_from_string address with
  | ok v => simp [is_valid_solana_address, hp, Except.isOk, Except.toBool]
  | error e => simp [is_valid_solana_address, hp, Except.isOk, Except.toBool]

/-- C4: the terminal forward is fire-and-forget: the store result of the
`/tt`-response handlers does not depend on the delivery outcome of the
forward send, and whenever such a handler consumes an address, that
address is deleted from the store. -/
theorem forward_failure_still_removes :
    (∀ (s : Store) (send_ok : Bool),
      (sol_phanes_tt_response_handler send_ok s).store =
        (sol_phanes_tt_response_handler true s).store ∧
      (bnb_phanes_tt_response_handler send_ok s).store =
        (bnb_phanes_tt_response_handler true s).store) ∧
    (∀ (s : Store) (send_ok : Bool) (a : String),
      (sol_phanes_tt_response_handler send_ok s).found = some a →
      lookup_ca (sol_phanes_tt_response_handler send_ok s).store a = none) ∧
    (∀ (s : Store) (send_ok : Bool) (a : String),
      (bnb_phanes_tt_response_handler send_ok s).found = some a →
      lookup_ca (bnb_phanes_tt_response_handler send_ok s).store a = none) := by
  refine ⟨fun s send_ok => ⟨?_, ?_⟩, fun s send_ok a h => ?_, fun s send_ok a h => ?_⟩
  · unfold sol_phanes_tt_response_handler
    cases s.find? (fun p => decide (p.2 = PState.a_waiting_for_tt_response)) with
    | none => rfl
    | some p => cases p; rfl
  · unfold bnb_phanes_tt_response_handler
    cases s.find? (fun p => decide (p.2 = PState.b_waiting_for_tt_response)) with
    | none => rfl
    | some p => cases p; rfl
  · unfold sol_phanes_tt_response_handler at *
    cases hf : s.find? (fun p => decide (p.2 = PState.a_waiting_for_tt_response)) with
    | none =>
      rw [hf] at h
      cases h
    | some p =>
      cases p with
      | mk c stc =>
        rw [hf] at h
        simp only at h
        have hac : c = a := Option.some_inj.mp h
        subst hac
        have hm : mem_ca s c = true := by
          rw [mem_ca_iff]
          exact List.mem_map.mpr ⟨(c, stc), List.mem_of_find?_eq_some hf, rfl⟩
        show lookup_ca (if mem_ca s c = true then del_ca s c else s) c = none
        rw [if_pos hm, lookup_del, if_pos rfl]
  · unfold bnb_phanes_tt_response_handler at *
    cases hf : s.find? (fun p => decide (p.2 = PState.b_waiting_for_tt_response)) with
    | none =>
      rw [hf] at h
      cases h
    | some p =>
      cases p with
      | mk c stc =>
        rw [hf] at h
        simp only at h
        have hac : c = a := Option.some_inj.mp h
        subst hac
        have hm : mem_ca s c = true := by
          rw [mem_ca_iff]
          exact List.mem_map.mpr ⟨(c, stc), List.mem_of_find?_eq_some hf, rfl⟩
        show lookup_ca (if mem_ca s c = true then del_ca s c else s) c = none
        rw [if_pos hm, lookup_del, if_pos rfl]

/-- C4 witness: on a store holding one instance at the terminal-wait
stage of each chain, a failed forward still removes the instance. -/
theorem forward_failure_still_removes_witness :
    lookup_ca (sol_phanes_tt_response_handler false
      [("SOLCA", PState.a_waiting_for_tt_response)]).store "SOLCA" = none ∧
    lookup_ca (bnb_phanes_tt_response_handler false
      [("BNBCA", PState.b_waiting_for_tt_response)]).store "BNBCA" = none :=
  ⟨forward_failure_still_removes.2.1
      [("SOLCA", PState.a_waiting_for_tt_response)] false "SOLCA" (by decide),
   forward_failure_still_removes.2.2
      [("BNBCA", PState.b_waiting_for_tt_response)] false "BNBCA" (by decide)⟩

/-- C6 counterexample: the message " 🔥 <CA>" does not begin with the
marker glyph — its leading character is a space — yet `sol_handler`
creates a pipeline instance and sends the CA to the scanner bot, because
the source strips whitespace before testing the glyph. -/
theorem marker_prefilter_counterexample :
    starts_with_glyph '🔥' " 🔥 11111111111111111111111111111111" = false ∧
    sol_handler [] " 🔥 11111111111111111111111111111111" [] =
      ⟨[("11111111111111111111111111111111", PState.a_soul_scanner)],
       [(Peer.soul_scanner_bot, "11111111111111111111111111111111")],
       some "11111111111111111111111111111111"⟩ := by
  decide

/-- C6 (amended): for every message whose text, after stripping leading
and trailing whitespace, does not start with the chain's marker glyph
(🔥 for the Solana source, 🪙 for the BNB source), no extraction is
attempted, no pipeline instance is created and no outbound message is
sent. -/
theorem marker_prefilter_skip (entities : List Entity) (raw_text : String) (s : Store) :
    (starts_with_glyph '🔥' (py_strip raw_text) = false →
      sol_handler entities raw_text s = ⟨s, [], none⟩) ∧
    (starts_with_glyph '🪙' (py_strip raw_text) = false →
      bnb_handler entities raw_text s = ⟨s, [], none⟩) := by
  constructor
  · intro hg
    unfold sol_handler
    rw [hg]
    rfl
  · intro hg
    unfold bnb_handler
    rw [hg]
    rfl

/-- C6 witness: a markerless message leaves the store untouched on both
channels. -/
theorem marker_prefilter_skip_witness :
    sol_handler [] "hello" [] = ⟨[], [], none⟩ ∧
    bnb_handler [] "hello" [] = ⟨[], [], none⟩ :=
  ⟨(marker_prefilter_skip [] "hello" []).1 (by decide),
   (marker_prefilter_skip [] "hello" []).2 (by decide)⟩

/-- C1 counterexample: with a Solana instance awaiting the step-two
reply and a BNB instance awaiting the step-one reply, a single Phanes
reply event is consumed by the Solana step-two handler and afterwards
also by the BNB step-one handler: the Solana `/tt`-response handler does
not raise `StopPropagation`, so a later step acts on the already
consumed event. -/
theorem reply_dispatch_counterexample :
    (dispatch_phanes true true
      [("SOLCA", PState.a_waiting_for_tt_response),
       ("BNBCA", PState.b_waiting_for_response)]).acted =
      [Step.solTt, Step.bnbInit] ∧
    1 < (dispatch_phanes true true
      [("SOLCA", PState.a_waiting_for_tt_response),
       ("BNBCA", PState.b_waiting_for_response)]).acted.length := by
  decide

/-- C1 (amended): one Phanes reply is dispatched over the steps in the
fixed order Solana step-one, Solana step-two, BNB step-one, BNB
step-two; each chain consumes the event at most once, and a consuming
step-one handler stops every later step, but Solana's step-two handler
does not short-circuit, so after it consumes, one BNB step may also act
on the same event.  The list of acting steps is always one of the seven
values enumerated here. -/
theorem reply_dispatch_discipline (sol_send_ok bnb_send_ok : Bool) (s : Store) :
    (dispatch_phanes sol_send_ok bnb_send_ok s).acted ∈
      [([] : List Step), [Step.solTh], [Step.solTt], [Step.bnbInit], [Step.bnbTt],
       [Step.solTt, Step.bnbInit], [Step.solTt, Step.bnbTt]] := by
  simp only [dispatch_phanes]
  cases h1 : (sol_phanes_th_response_handler s).found with
  | some v => simp
  | none =>
    cases h3 : (bnb_phanes_initial_response_handler
        (sol_phanes_tt_response_handler sol_send_ok
          (sol_phanes_th_response_handler s).store).store).found with
    | some v =>
      cases h2 : (sol_phanes_tt_response_handler sol_send_ok
          (sol_phanes_th_response_handler s).store).found with
      | some w => simp
      | none => simp
    | none =>
      cases h2 : (sol_phanes_tt_response_handler sol_send_ok
          (sol_phanes_th_response_handler s).store).found with
      | some w =>
        cases h4 : (bnb_phanes_tt_response_handler bnb_send_ok
            (bnb_phanes_initial_response_handler
              (sol_phanes_tt_response_handler sol_send_ok
                (sol_phanes_th_response_handler s).store).store).store).found with
        | some u => simp
        | none => simp
      | none =>
        cases h4 : (bnb_phanes_tt_response_handler bnb_send_ok
            (bnb_phanes_initial_response_handler
              (sol_phanes_tt_response_handler sol_send_ok
                (sol_phanes_th_response_handler s).store).store).store).found with
        | some u => simp
        | none => simp

/-- C2: in every reachable execution, an instance's stage only ever
moves forward along its chain's fixed stage sequence: whenever an
instance for address `a` exists before and after an event, its stage is
either unchanged or has advanced to the immediate successor in its
chain's sequence — never a regression and never a skipped stage (an
instance leaving its last stored stage is removed, not re-staged). -/
theorem stage_advances_forward {s : Store} (hr : Reachable s) (e : Event)
    {a : String} {st st' : PState}
    (hs : lookup_ca s a = some st)
    (h : lookup_ca (step e s) a = some st') :
    st' = st ∨ next_state st = some st' :=
  step_advance e (wf_of_reachable hr) hs h

/-- C2 witness: from a reachable store holding the system-program CA at
`a_soul_scanner`, a scanner reply containing that CA advances it by
exactly one stage. -/
theorem stage_advances_forward_witness :
    PState.a_waiting_for_th_response = PState.a_soul_scanner ∨
    next_state PState.a_soul_scanner = some PState.a_waiting_for_th_response := by
  have hr : Reachable [("11111111111111111111111111111111", PState.a_soul_scanner)] := by
    have h0 := Reachable.next
      (Event.sol_msg [] "🔥 11111111111111111111111111111111") Reachable.init
    rwa [show step (Event.sol_msg [] "🔥 11111111111111111111111111111111") [] =
      [("11111111111111111111111111111111", PState.a_soul_scanner)] from by decide] at h0
  exact @stage_advances_forward
    [("11111111111111111111111111111111", PState.a_soul_scanner)] hr
    (Event.scanner_msg "report 11111111111111111111111111111111 done")
    "11111111111111111111111111111111"
    PState.a_soul_scanner PState.a_waiting_for_th_response
    (by decide) (by decide)

/-- C3: in every reachable store the keys are duplicate-free, so at most
one pipeline instance exists per address across both chains; and an
attempt to begin a pipeline for an address that is already pending — on
either source channel — returns without mutating the store and without
sending anything, leaving exactly the one original instance for that
address. -/
theorem unique_instance_per_address {s : Store} (hr : Reachable s) :
    (keys s).Nodup ∧
    ∀ (a : String) (entities : List Entity) (raw_text : String), a ∈ keys s →
      (extract_ca entities raw_text false = some a →
        sol_handler entities raw_text s = ⟨s, [], none⟩) ∧
      (extract_ca entities raw_text true = some a →
        bnb_handler entities raw_text s = ⟨s, [], none⟩) ∧
      List.count a (keys s) = 1 := by
  have hnd := wf_of_reachable hr
  refine ⟨hnd, fun a entities raw_text ha => ⟨?_, ?_, ?_⟩⟩
  · intro hx
    unfold sol_handler
    by_cases hg : starts_with_glyph '🔥' (py_strip raw_text)
    · simp only [hg, Bool.not_true, Bool.false_eq_true, if_false]
      rw [hx]
      simp only
      rw [if_pos ((mem_ca_iff s a).mpr ha)]
    · simp [hg]
  · intro hx
    unfold bnb_handler
    by_cases hg : starts_with_glyph '🪙' (py_strip raw_text)
    · simp only [hg, Bool.not_true, Bool.false_eq_true, if_false]
      rw [hx]
      simp only
      rw [if_pos ((mem_ca_iff s a).mpr ha)]
    · simp [hg]
  · exact List.count_eq_one_of_mem hnd ha

/-- C3 witness: a second begin for the pending system-program CA leaves
the reachable one-instance store unchanged, with nothing sent. -/
theorem unique_instance_per_address_witness :
    sol_handler [] "🔥 see 11111111111111111111111111111111"
      [("11111111111111111111111111111111", PState.a_soul_scanner)] =
      ⟨[("11111111111111111111111111111111", PState.a_soul_scanner)], [], none⟩ ∧
    List.count "11111111111111111111111111111111"
      (keys [("11111111111111111111111111111111", PState.a_soul_scanner)]) = 1 := by
  have hr : Reachable [("11111111111111111111111111111111", PState.a_soul_scanner)] := by
    have h0 := Reachable.next
      (Event.sol_msg [] "🔥 11111111111111111111111111111111") Reachable.init
    rwa [show step (Event.sol_msg [] "🔥 11111111111111111111111111111111") [] =
      [("11111111111111111111111111111111", PState.a_soul_scanner)] from by decide] at h0
  have h := (unique_instance_per_address hr).2 "11111111111111111111111111111111"
    [] "🔥 see 11111111111111111111111111111111" (by decide)
  exact ⟨h.1 (by decide), h.2.2⟩

theorem mem_of_lookup {s : Store} {a : String} {st : PState}
    (h : lookup_ca s a = some st) : (a, st) ∈ s := by
  unfold lookup_ca at h
  cases hf : s.find? (fun p => decide (p.1 = a)) with
  | none =>
    rw [hf] at h
    cases h
  | some p =>
    rw [hf] at h
    have h1 := List.find?_some hf
    have h2 := List.mem_of_find?_eq_some hf
    simp only [decide_eq_true_eq] at h1
    cases p with
    | mk x y =>
      have hy : some y = some st := h
      have hx : x = a := h1
      subst hx
      rw [Option.some_inj.mp hy] at h2
      exact h2

/-- C7: a Solana instance at `a_soul_scanner` (SentToScanner) advances
to `a_waiting_for_th_response` (AwaitingStepOneReply) exactly when a
scanner-agent reply arrives whose text contains a pending address at
that stage — content-matched, not stage-only; on that transition the
step-one command `/th CA` is sent to the second agent and no other
instance changes. -/
theorem scanner_reply_advances (raw_text : String) (s : Store)
    (hnd : (keys s).Nodup) :
    ((sol_soul_scanner_handler raw_text s).found.isSome ↔
      ∃ p ∈ s, p.2 = PState.a_soul_scanner ∧
        infix_of p.1.data raw_text.data = true) ∧
    ∀ ca, (sol_soul_scanner_handler raw_text s).found = some ca →
      lookup_ca s ca = some PState.a_soul_scanner ∧
      infix_of ca.data raw_text.data = true ∧
      lookup_ca (sol_soul_scanner_handler raw_text s).store ca =
        some PState.a_waiting_for_th_response ∧
      (sol_soul_scanner_handler raw_text s).sends =
        [(Peer.phanes_bot, "/th " ++ ca)] ∧
      ∀ b, b ≠ ca →
        lookup_ca (sol_soul_scanner_handler raw_text s).store b = lookup_ca s b := by
  have hiff : (sol_soul_scanner_handler raw_text s).found.isSome =
      (s.find? (fun p =>
        decide (p.2 = PState.a_soul_scanner) &&
          infix_of p.1.data raw_text.data)).isSome := by
    unfold sol_soul_scanner_handler
    cases s.find? (fun p =>
        decide (p.2 = PState.a_soul_scanner) && infix_of p.1.data raw_text.data) with
    | none => rfl
    | some p => cases p; rfl
  constructor
  · rw [hiff, List.find?_isSome]
    simp only [Bool.and_eq_true, decide_eq_true_eq]
  · intro ca hfound
    unfold sol_soul_scanner_handler at hfound ⊢
    cases hf : s.find? (fun p =>
        decide (p.2 = PState.a_soul_scanner) && infix_of p.1.data raw_text.data) with
    | none =>
      rw [hf] at hfound
      cases hfound
    | some p =>
      cases p with
      | mk c stc =>
        rw [hf] at hfound
        simp only at hfound
        have hceq : c = ca := Option.some_inj.mp hfound
        subst hceq
        have hpred := List.find?_some hf
        simp only [Bool.and_eq_true, decide_eq_true_eq] at hpred
        have hmem : (c, stc) ∈ s := List.mem_of_find?_eq_some hf
        have hlook : lookup_ca s c = some PState.a_soul_scanner := by
          rw [← hpred.1]
          exact lookup_of_mem_nodup hnd hmem
        refine ⟨hlook, hpred.2, ?_, rfl, ?_⟩
        · show lookup_ca (set_state s c PState.a_waiting_for_th_response) c =
            some PState.a_waiting_for_th_response
          rw [lookup_set_state, hlook]
          simp
        · intro b hbc
          show lookup_ca (set_state s c PState.a_waiting_for_th_response) b =
            lookup_ca s b
          rw [lookup_set_state]
          cases lookup_ca s b <;> simp [hbc]

/-- C7 witness: a scanner reply containing the single pending CA moves
it to the step-one wait stage and sends the `/th` command. -/
theorem scanner_reply_advances_witness :
    lookup_ca (sol_soul_scanner_handler "ok 11111111111111111111111111111111"
      [("11111111111111111111111111111111", PState.a_soul_scanner)]).store
      "11111111111111111111111111111111" = some PState.a_waiting_for_th_response ∧
    (sol_soul_scanner_handler "ok 11111111111111111111111111111111"
      [("11111111111111111111111111111111", PState.a_soul_scanner)]).sends =
      [(Peer.phanes_bot, "/th 11111111111111111111111111111111")] := by
  have h := (scanner_reply_advances "ok 11111111111111111111111111111111"
    [("11111111111111111111111111111111", PState.a_soul_scanner)] (by decide)).2
    "11111111111111111111111111111111" (by decide)
  exact ⟨h.2.2.1, h.2.2.2.1.trans (by decide)⟩

theorem Advance_lookup_some {s : Store} {a : String} {st f t : PState}
    (h : lookup_ca s a = some st) :
    Advance s a f t = if st = f then (AdvanceResult.ok, set_state s a t)
      else (AdvanceResult.stageMismatch, s) := by
  unfold Advance
  rw [h]

/-- C8: `Advance(a, from, to)` mutates the stage only when an instance
for `a` exists and currently sits at `from`; on a missing address or a
mismatched current stage it returns `notFound`/`stageMismatch` with the
store unchanged (every instance's stage untouched); on success only
`a`'s stage changes; and the scanner-reply handler's successful inline
mutation coincides with an `ok` `Advance` from `a_soul_scanner` to
`a_waiting_for_th_response`. -/
theorem advance_contract :
    (∀ (s : Store) (a : String) (fromStage toStage : PState),
      lookup_ca s a = none →
        Advance s a fromStage toStage = (AdvanceResult.notFound, s)) ∧
    (∀ (s : Store) (a : String) (fromStage toStage st : PState),
      lookup_ca s a = some st → st ≠ fromStage →
        Advance s a fromStage toStage = (AdvanceResult.stageMismatch, s)) ∧
    (∀ (s : Store) (a : String) (fromStage toStage st : PState),
      lookup_ca s a = some st → st = fromStage →
        (Advance s a fromStage toStage).1 = AdvanceResult.ok ∧
        lookup_ca (Advance s a fromStage toStage).2 a = some toStage ∧
        ∀ b, b ≠ a →
          lookup_ca (Advance s a fromStage toStage).2 b = lookup_ca s b) ∧
    (∀ (raw_text : String) (s : Store) (ca : String), (keys s).Nodup →
      (sol_soul_scanner_handler raw_text s).found = some ca →
      (sol_soul_scanner_handler raw_text s).store =
        (Advance s ca PState.a_soul_scanner PState.a_waiting_for_th_response).2 ∧
      (Advance s ca PState.a_soul_scanner PState.a_waiting_for_th_response).1 =
        AdvanceResult.ok) := by
  refine ⟨fun s a f t h => ?_, fun s a f t st h hne => ?_,
    fun s a f t st h he => ?_, fun raw_text s ca hnd hfound => ?_⟩
  · unfold Advance
    rw [h]
  · rw [Advance_lookup_some h, if_neg hne]
  · rw [Advance_lookup_some h, if_pos he]
    refine ⟨rfl, ?_, ?_⟩
    · rw [lookup_set_state, h]
      simp
    · intro b hba
      rw [lookup_set_state]
      cases lookup_ca s b <;> simp [hba]
  · unfold sol_soul_scanner_handler at hfound ⊢
    cases hf : s.find? (fun p =>
        decide (p.2 = PState.a_soul_scanner) && infix_of p.1.data raw_text.data) with
    | none =>
      rw [hf] at hfound
      cases hfound
    | some p =>
      cases p with
      | mk c stc =>
        rw [hf] at hfound
        simp only at hfound
        have hceq : c = ca := Option.some_inj.mp hfound
        subst hceq
        have hpred := List.find?_some hf
        simp only [Bool.and_eq_true, decide_eq_true_eq] at hpred
        have hmem : (c, stc) ∈ s := List.mem_of_find?_eq_some hf
        have hlook : lookup_ca s c = some PState.a_soul_scanner := by
          rw [← hpred.1]
          exact lookup_of_mem_nodup hnd hmem
        rw [Advance_lookup_some hlook, if_pos rfl]
        exact ⟨rfl, rfl⟩

/-- C8 witness: on a one-instance store, advancing from the wrong stage
is rejected without mutation, advancing from the right stage succeeds,
and a missing address reports `notFound`. -/
theorem advance_contract_witness :
    Advance [("11111111111111111111111111111111", PState.a_soul_scanner)]
      "11111111111111111111111111111111"
      PState.a_waiting_for_th_response PState.a_waiting_for_tt_response =
      (AdvanceResult.stageMismatch,
        [("11111111111111111111111111111111", PState.a_soul_scanner)]) ∧
    (Advance [("11111111111111111111111111111111", PState.a_soul_scanner)]
      "11111111111111111111111111111111"
      PState.a_soul_scanner PState.a_waiting_for_th_response).1 =
      AdvanceResult.ok ∧
    Advance [] "11111111111111111111111111111111"
      PState.a_soul_scanner PState.a_waiting_for_th_response =
      (AdvanceResult.notFound, []) :=
  ⟨advance_contract.2.1 [("11111111111111111111111111111111", PState.a_soul_scanner)]
      "11111111111111111111111111111111"
      PState.a_waiting_for_th_response PState.a_waiting_for_tt_response
      PState.a_soul_scanner (by decide) (by decide),
   (advance_contract.2.2.1 [("11111111111111111111111111111111", PState.a_soul_scanner)]
      "11111111111111111111111111111111"
      PState.a_soul_scanner PState.a_waiting_for_th_response
      PState.a_soul_scanner (by decide) rfl).1,
   advance_contract.1 [] "11111111111111111111111111111111"
      PState.a_soul_scanner PState.a_waiting_for_th_response (by decide)⟩

/-- C9: when the Solana instances occupying `a_waiting_for_th_response`
are exactly two, a single Phanes reply advances exactly one of them to
`a_waiting_for_tt_response` — which one is unspecified — and the other
instance's stage is unchanged by that event. -/
theorem two_pending_exactly_one_advances (sol_send_ok bnb_send_ok : Bool)
    (s : Store) (a b : String) (hnd : (keys s).Nodup) (hab : a ≠ b)
    (ha : lookup_ca s a = some PState.a_waiting_for_th_response)
    (hb : lookup_ca s b = some PState.a_waiting_for_th_response)
    (honly : ∀ p ∈ s, p.2 = PState.a_waiting_for_th_response → p.1 = a ∨ p.1 = b) :
    (lookup_ca (dispatch_phanes sol_send_ok bnb_send_ok s).store a =
        some PState.a_waiting_for_tt_response ∧
      lookup_ca (dispatch_phanes sol_send_ok bnb_send_ok s).store b =
        some PState.a_waiting_for_th_response) ∨
    (lookup_ca (dispatch_phanes sol_send_ok bnb_send_ok s).store a =
        some PState.a_waiting_for_th_response ∧
      lookup_ca (dispatch_phanes sol_send_ok bnb_send_ok s).store b =
        some PState.a_waiting_for_tt_response) := by
  have hmem : (a, PState.a_waiting_for_th_response) ∈ s := mem_of_lookup ha
  have hex : (s.find? (fun p =>
      decide (p.2 = PState.a_waiting_for_th_response))).isSome := by
    rw [List.find?_isSome]
    exact ⟨(a, PState.a_waiting_for_th_response), hmem, by simp⟩
  rcases Option.isSome_iff_exists.mp hex with ⟨p, hf⟩
  cases p with
  | mk c stc =>
    have hpred := List.find?_some hf
    simp only [decide_eq_true_eq] at hpred
    have hcmem := List.mem_of_find?_eq_some hf
    have hcab : c = a ∨ c = b := honly (c, stc) hcmem hpred
    have hr1 : (sol_phanes_th_response_handler s).found = some c := by
      unfold sol_phanes_th_response_handler
      rw [hf]
    have hr1s : (sol_phanes_th_response_handler s).store =
        set_state s c PState.a_waiting_for_tt_response := by
      unfold sol_phanes_th_response_handler
      rw [hf]
    have hstore : (dispatch_phanes sol_send_ok bnb_send_ok s).store =
        set_state s c PState.a_waiting_for_tt_response := by
      simp only [dispatch_phanes]
      rw [hr1]
      exact hr1s
    rw [hstore]
    have hba : ¬ b = a := fun h => hab h.symm
    rcases hcab with rfl | rfl
    · left
      constructor
      · rw [lookup_set_state, ha]
        simp
      · rw [lookup_set_state, hb]
        simp [hba]
    · right
      constructor
      · rw [lookup_set_state, ha]
        simp [hab]
      · rw [lookup_set_state, hb]
        simp

/-- C9 witness: with exactly two Solana instances awaiting the step-one
reply, one Phanes reply advances exactly one of them. -/
theorem two_pending_exactly_one_advances_witness :
    (lookup_ca (dispatch_phanes true true
        [("CAONE", PState.a_waiting_for_th_response),
         ("CATWO", PState.a_waiting_for_th_response)]).store "CAONE" =
        some PState.a_waiting_for_tt_response ∧
      lookup_ca (dispatch_phanes true true
        [("CAONE", PState.a_waiting_for_th_response),
         ("CATWO", PState.a_waiting_for_th_response)]).store "CATWO" =
        some PState.a_waiting_for_th_response) ∨
    (lookup_ca (dispatch_phanes true true
        [("CAONE", PState.a_waiting_for_th_response),
         ("CATWO", PState.a_waiting_for_th_response)]).store "CAONE" =
        some PState.a_waiting_for_th_response ∧
      lookup_ca (dispatch_phanes true true
        [("CAONE", PState.a_waiting_for_th_response),
         ("CATWO", PState.a_waiting_for_th_response)]).store "CATWO" =
        some PState.a_waiting_for_tt_response) :=
  two_pending_exactly_one_advances true true
    [("CAONE", PState.a_waiting_for_th_response),
     ("CATWO", PState.a_waiting_for_th_response)]
    "CAONE" "CATWO" (by decide) (by decide) (by decide) (by decide) (by decide)

end MDBBot
